import Mathlib

/-!
Verification development for the vector-addition core of `vector_app`
(file `hf_deploy/vector_addition.py`).

The Python core is shallowly embedded over `ℝ`:
machine floats become real numbers, `numpy` trigonometry becomes
`Real.cos`/`Real.sin`/`Real.arctan`, Python's `raise ValueError` becomes
`Except.error`, and the mutable history list becomes explicit state passing.
A separate small heap model captures reference aliasing where Python's
shallow `list.copy()` semantics matter.
-/

namespace VectorApp

open Real

/-- Source constant `ZERO_THRESHOLD = 1e-6` (`vector_addition.py` line 29). -/
noncomputable def ZERO_THRESHOLD : ℝ := 1 / 1000000

/-- Source constant `ARC_BASE_RADIUS_RATIO = 0.15` (line 19). -/
noncomputable def ARC_BASE_RADIUS_RATIO : ℝ := 15 / 100

/-- Source constant `ARC_LABEL_OFFSET_RATIO = 1.15` (line 13). -/
noncomputable def ARC_LABEL_OFFSET_RATIO : ℝ := 115 / 100

/-- Source constant `ARC_LABEL_RADIUS_RATIO = 1.08` (line 14). -/
noncomputable def ARC_LABEL_RADIUS_RATIO : ℝ := 108 / 100

/-- Embedding of the dataclass `VectorData` (lines 32-42): x/y components,
magnitude and angle in degrees, all floats in the source, reals here. -/
structure VectorData where
  x : ℝ
  y : ℝ
  mag : ℝ
  angle : ℝ

/-- `np.radians`: degrees to radians. -/
noncomputable def radians (d : ℝ) : ℝ := d * (Real.pi / 180)

/-- `np.degrees`: radians to degrees. -/
noncomputable def degrees (r : ℝ) : ℝ := r * (180 / Real.pi)

/-- `np.arctan2(y, x)`: the two-argument arctangent, written out by the
standard case analysis it implements (sign-of-zero subtleties of IEEE
floats do not exist over `ℝ`).  Returns a value in `(-π, π]`. -/
noncomputable def arctan2 (y x : ℝ) : ℝ :=
  if 0 < x then Real.arctan (y / x)
  else if x < 0 then
    if 0 ≤ y then Real.arctan (y / x) + Real.pi else Real.arctan (y / x) - Real.pi
  else
    if 0 < y then Real.pi / 2 else if y < 0 then -(Real.pi / 2) else 0

/-- The payload of the `ValueError` raised by `validate_input` (line 172):
the message carries the offending vector's name and the invalid magnitude. -/
structure InvalidInput where
  name : String
  value : ℝ

/-- Embedding of `validate_input(magnitude, angle, name)` (lines 159-172):
raises iff the magnitude is strictly negative; the angle is never checked. -/
noncomputable def validate_input (magnitude : ℝ) (angle : ℝ) (name : String) :
    Except InvalidInput Unit :=
  if magnitude < 0 then Except.error ⟨name, magnitude⟩ else Except.ok ()

/-- Embedding of `add_vectors(f1_mag, f1_angle, f2_mag, f2_angle)`
(lines 175-213): validate both magnitudes, decompose each input into
components, sum them, and build the resultant record. -/
noncomputable def add_vectors (f1_mag f1_angle f2_mag f2_angle : ℝ) :
    Except InvalidInput (VectorData × VectorData × VectorData) :=
  match validate_input f1_mag f1_angle "Force 1" with
  | Except.error e => Except.error e
  | Except.ok _ =>
    match validate_input f2_mag f2_angle "Force 2" with
    | Except.error e => Except.error e
    | Except.ok _ =>
      let f1_rad := radians f1_angle
      let f2_rad := radians f2_angle
      let f1_x := f1_mag * Real.cos f1_rad
      let f1_y := f1_mag * Real.sin f1_rad
      let f2_x := f2_mag * Real.cos f2_rad
      let f2_y := f2_mag * Real.sin f2_rad
      let r_x := f1_x + f2_x
      let r_y := f1_y + f2_y
      let r_mag := Real.sqrt (r_x ^ 2 + r_y ^ 2)
      let r_angle := degrees (arctan2 r_y r_x)
      Except.ok (⟨f1_x, f1_y, f1_mag, f1_angle⟩,
                 ⟨f2_x, f2_y, f2_mag, f2_angle⟩,
                 ⟨r_x, r_y, r_mag, r_angle⟩)

/-- Extract the first input record from a successful `add_vectors` call
(defaulting to the zero record on error; used only to state theorems). -/
noncomputable def okF1 (e : Except InvalidInput (VectorData × VectorData × VectorData)) :
    VectorData :=
  match e with
  | Except.ok (a, _, _) => a
  | Except.error _ => ⟨0, 0, 0, 0⟩

/-- Extract the second input record from a successful `add_vectors` call. -/
noncomputable def okF2 (e : Except InvalidInput (VectorData × VectorData × VectorData)) :
    VectorData :=
  match e with
  | Except.ok (_, b, _) => b
  | Except.error _ => ⟨0, 0, 0, 0⟩

/-- Extract the resultant record from a successful `add_vectors` call. -/
noncomputable def okR (e : Except InvalidInput (VectorData × VectorData × VectorData)) :
    VectorData :=
  match e with
  | Except.ok (_, _, r) => r
  | Except.error _ => ⟨0, 0, 0, 0⟩

/-- Normalization of an angle in degrees into the interval `(-180, 180]`,
the convention of `np.arctan2` expressed in degrees.  Used to state the
spec's "normalized to the same angular convention" phrase. -/
noncomputable def normDeg (a : ℝ) : ℝ := a - 360 * ⌈(a - 180) / 360⌉

/-- The Vector2D invariant exactly as the spec words it for a stored record:
`magnitude = sqrt(x²+y²)`, `angle = atan2(y,x)` in degrees, `magnitude ≥ 0`. -/
noncomputable def VectorInvariant (v : VectorData) : Prop :=
  v.mag = Real.sqrt (v.x ^ 2 + v.y ^ 2)
    ∧ v.angle = degrees (arctan2 v.y v.x)
    ∧ 0 ≤ v.mag

/-- The invariant any `add_vectors` output actually satisfies: magnitude is
the Euclidean norm and is nonnegative, and for records of positive magnitude
the stored angle agrees with `atan2(y,x)` up to the 360-degree normalization
(input records keep the caller-supplied angle, which may lie outside
`(-180, 180]`). -/
noncomputable def VectorInvariantMod (v : VectorData) : Prop :=
  v.mag = Real.sqrt (v.x ^ 2 + v.y ^ 2)
    ∧ 0 ≤ v.mag
    ∧ (0 < v.mag → normDeg v.angle = degrees (arctan2 v.y v.x))

/-- Geometry produced by `draw_angle_arc` (lines 285-313) for an arc from the
positive x-axis to `angle`, stripped of the matplotlib calls: the arc radius,
the arc's angular end, and the label-tip position.  `none` models the early
`return` when `abs(angle) < ZERO_THRESHOLD` (lines 300-301). -/
structure ArcSpec where
  arc_radius : ℝ
  theta_end : ℝ
  tip_x : ℝ
  tip_y : ℝ

/-- Embedding of `draw_angle_arc(ax, angle, color, max_val, radius_ratio, ...)`
keeping only the numeric geometry (colors, widths and the axes object are
rendering plumbing). -/
noncomputable def draw_angle_arc (angle max_val radius_ratio : ℝ) : Option ArcSpec :=
  if |angle| < ZERO_THRESHOLD then none
  else
    let arc_radius := max_val * ARC_BASE_RADIUS_RATIO * radius_ratio
    let tip_angle_rad := radians (angle * ARC_LABEL_OFFSET_RATIO)
    let tip_radius := arc_radius * ARC_LABEL_RADIUS_RATIO
    some ⟨arc_radius, radians angle,
      tip_radius * Real.cos tip_angle_rad, tip_radius * Real.sin tip_angle_rad⟩

/-- Python's float modulo `x % m` for `m > 0`: result in `[0, m)` with the
sign of the divisor; `x % m = x - m*⌊x/m⌋`. -/
noncomputable def fmod (x m : ℝ) : ℝ := x - m * ⌊x / m⌋

/-- Embedding of `relative_angle(a, b)` (lines 349-352):
`d = (b - a) % 360; return d if d <= 180 else 360 - d`. -/
noncomputable def relative_angle (a b : ℝ) : ℝ :=
  if fmod (b - a) 360 ≤ 180 then fmod (b - a) 360 else 360 - fmod (b - a) 360

/-- Modelled from the spec: `sum_vectors` (spec §4.1/§6) is not present in the
source (only the two-vector `add_vectors` is); per the spec it decomposes each
`(magnitude, angle_degrees)` pair and sums components elementwise, building
the resultant exactly as `add_vectors` does. -/
noncomputable def sum_vectors (vs : List (ℝ × ℝ)) : VectorData :=
  let r_x := (vs.map (fun p => p.1 * Real.cos (radians p.2))).sum
  let r_y := (vs.map (fun p => p.1 * Real.sin (radians p.2))).sum
  ⟨r_x, r_y, Real.sqrt (r_x ^ 2 + r_y ^ 2), degrees (arctan2 r_y r_x)⟩

/-- Embedding of the class `VectorHistory` (lines 108-156), generic in the
entry type (Python lists are heterogeneous; the claims' statements are about
the list discipline, not the entry payload). -/
structure VectorHistory (α : Type) where
  max_size : Nat
  history : List α

/-- Python's slice `l[-n:]` for a nonnegative `n`: the last `n` elements,
except that `n = 0` (since `-0 == 0`) yields the whole list. -/
def pySliceLast {α : Type} (l : List α) (n : Nat) : List α :=
  if n = 0 then l else l.drop (l.length - n)

/-- Embedding of `VectorHistory.add` (lines 115-131), with the entry already
built (timestamps are an external input here): append, then if the length
exceeds `max_size` keep `self.history[-self.max_size:]`. -/
def VectorHistory.add {α : Type} (h : VectorHistory α) (e : α) : VectorHistory α :=
  let hist := h.history ++ [e]
  if hist.length > h.max_size then { h with history := pySliceLast hist h.max_size }
  else { h with history := hist }

/-- Embedding of `VectorHistory.get_all` (lines 133-135): `self.history.copy()`,
a value-level copy of the internal list.  (Aliasing of the entry records under
Python's shallow copy is modelled separately by the heap model below.) -/
def VectorHistory.get_all {α : Type} (h : VectorHistory α) : List α := h.history

/-- Embedding of `VectorHistory.get_last` (lines 137-139):
`self.history[-n:] if self.history else []`.  The claims only concern
nonnegative `n`, so `n : Nat`. -/
def VectorHistory.get_last {α : Type} (h : VectorHistory α) (n : Nat) : List α :=
  if h.history.isEmpty then [] else pySliceLast h.history n

/-- The suffix of the last `n` elements of a list (specification-side helper
for stating keep-last-N behavior). -/
def lastN {α : Type} (n : Nat) (l : List α) : List α := l.drop (l.length - n)

/-- A history entry as built by `VectorHistory.add` (lines 118-126): the
timestamp string (`datetime.now().isoformat()`, supplied externally here),
the four raw inputs, the scale, and the resultant record. -/
structure HEntry where
  timestamp : String
  f1_mag : ℝ
  f1_angle : ℝ
  f2_mag : ℝ
  f2_angle : ℝ
  scale : ℝ
  result : VectorData

/-- The history interaction of `plot_vectors` (lines 464-486), with the
matplotlib rendering stripped: compute `add_vectors`; on error the exception
propagates and the caller's history is returned untouched; on success the
entry is appended.  `ts` abstracts `datetime.now().isoformat()`. -/
noncomputable def plot_vectors (ts : String) (f1_mag f1_angle f2_mag f2_angle scale : ℝ)
    (history : VectorHistory HEntry) :
    VectorHistory HEntry × Except InvalidInput (VectorData × VectorData × VectorData) :=
  match add_vectors f1_mag f1_angle f2_mag f2_angle with
  | Except.error e => (history, Except.error e)
  | Except.ok (f1, f2, r) =>
      (history.add ⟨ts, f1_mag, f1_angle, f2_mag, f2_angle, scale, r⟩,
       Except.ok (f1, f2, r))

/-- Heap model for reference aliasing: `lists` is the heap of Python list
objects (each a list of entry addresses), `entries` the heap of entry
records.  Addresses are indices. -/
structure PyHeap (β : Type) where
  lists : List (List Nat)
  entries : List β

/-- A `VectorHistory` object whose `history` attribute is a reference to a
list object on the heap. -/
structure PyHistoryRef where
  max_size : Nat
  historyAddr : Nat

/-- Dereference a list address. -/
def PyHeap.readList {β : Type} (σ : PyHeap β) (a : Nat) : List Nat :=
  (σ.lists.get? a).getD []

/-- The observable contents of the log: the entry record behind each address
held by the internal history list. -/
def PyHeap.logContents {β : Type} (σ : PyHeap β) (h : PyHistoryRef) : List (Option β) :=
  (σ.readList h.historyAddr).map (fun ea => σ.entries.get? ea)

/-- `get_all` under the heap model: `self.history.copy()` allocates a fresh
list object holding the same entry references and returns its address. -/
def PyHeap.get_all {β : Type} (σ : PyHeap β) (h : PyHistoryRef) : PyHeap β × Nat :=
  ({ σ with lists := σ.lists ++ [σ.readList h.historyAddr] }, σ.lists.length)

/-- Caller-side mutation of a list object in place (e.g. `view.append(x)`). -/
def PyHeap.listAppend {β : Type} (σ : PyHeap β) (a : Nat) (v : Nat) : PyHeap β :=
  { σ with lists := σ.lists.set a (σ.readList a ++ [v]) }

/-- Caller-side in-place overwrite of one element of a list object. -/
def PyHeap.listSet {β : Type} (σ : PyHeap β) (a : Nat) (i : Nat) (v : Nat) : PyHeap β :=
  { σ with lists := σ.lists.set a ((σ.readList a).set i v) }

/-- Caller-side in-place mutation of an entry record (e.g. `entry["scale"]=0`). -/
def PyHeap.entrySet {β : Type} (σ : PyHeap β) (ea : Nat) (v : β) : PyHeap β :=
  { σ with entries := σ.entries.set ea v }

/-- Written from the spec's formulas for C1 (a refinement-style restatement,
to be compared with the source's `add_vectors`): each input decomposes as
`x = magnitude·cos(radians(angle))`, `y = magnitude·sin(radians(angle))`;
the resultant is the elementwise sum with `magnitude = sqrt(x²+y²)` and
`angle = atan2(Σy, Σx)` in degrees. -/
noncomputable def specOutput (f1m f1a f2m f2a : ℝ) :
    VectorData × VectorData × VectorData :=
  let f1x := f1m * Real.cos (radians f1a)
  let f1y := f1m * Real.sin (radians f1a)
  let f2x := f2m * Real.cos (radians f2a)
  let f2y := f2m * Real.sin (radians f2a)
  (⟨f1x, f1y, f1m, f1a⟩,
   ⟨f2x, f2y, f2m, f2a⟩,
   ⟨f1x + f2x, f1y + f2y,
    Real.sqrt ((f1x + f2x) ^ 2 + (f1y + f2y) ^ 2),
    degrees (arctan2 (f1y + f2y) (f1x + f2x))⟩)

theorem arctan_nonpos_of {z : ℝ} (h : z ≤ 0) : Real.arctan z ≤ 0 := by
  have := Real.arctan_strictMono.monotone h
  rwa [Real.arctan_zero] at this

theorem arctan_pos_of {z : ℝ} (h : 0 < z) : 0 < Real.arctan z := by
  have := Real.arctan_strictMono h
  rwa [Real.arctan_zero] at this

/-- `arctan2` lands in `(-π, π]`. -/
theorem arctan2_mem_Ioc (y x : ℝ) :
    -Real.pi < arctan2 y x ∧ arctan2 y x ≤ Real.pi := by
  have hpi := Real.pi_pos
  unfold arctan2
  split_ifs with hx hxneg hy hy1 hy2
  · have h1 := Real.arctan_lt_pi_div_two (y / x)
    have h2 := Real.neg_pi_div_two_lt_arctan (y / x)
    constructor <;> linarith
  · have h1 : y / x ≤ 0 := div_nonpos_of_nonneg_of_nonpos hy hxneg.le
    have h2 := arctan_nonpos_of h1
    have h3 := Real.neg_pi_div_two_lt_arctan (y / x)
    constructor <;> linarith
  · have h1 : 0 < y / x := div_pos_of_neg_of_neg (lt_of_not_le hy) hxneg
    have h2 := arctan_pos_of h1
    have h3 := Real.arctan_lt_pi_div_two (y / x)
    constructor <;> linarith
  · constructor <;> linarith
  · constructor <;> linarith
  · constructor <;> linarith

/-- On the principal interval `(-π, π]`, `arctan2` inverts the
`(sin, cos)` decomposition. -/
theorem arctan2_sin_cos {τ : ℝ} (h1 : -Real.pi < τ) (h2 : τ ≤ Real.pi) :
    arctan2 (Real.sin τ) (Real.cos τ) = τ := by
  have hpi := Real.pi_pos
  rcases lt_trichotomy τ (Real.pi / 2) with hA | hA | hA
  · rcases lt_trichotomy (-(Real.pi / 2)) τ with hB | hB | hB
    · -- τ ∈ (-π/2, π/2): cos τ > 0
      have hc : 0 < Real.cos τ := Real.cos_pos_of_mem_Ioo ⟨hB, hA⟩
      rw [arctan2, if_pos hc, ← Real.tan_eq_sin_div_cos, Real.arctan_tan hB hA]
    · -- τ = -π/2
      subst hB
      have hc : Real.cos (-(Real.pi / 2)) = 0 := by
        rw [Real.cos_neg, Real.cos_pi_div_two]
      have hs : Real.sin (-(Real.pi / 2)) = -1 := by
        rw [Real.sin_neg, Real.sin_pi_div_two]
      rw [arctan2, hc, hs]
      norm_num
    · -- τ ∈ (-π, -π/2): cos τ < 0, sin τ < 0
      have hc : Real.cos τ < 0 := by
        have : Real.cos (-τ) < 0 :=
          Real.cos_neg_of_pi_div_two_lt_of_lt (by linarith) (by linarith)
        rwa [Real.cos_neg] at this
      have hs : Real.sin τ < 0 := Real.sin_neg_of_neg_of_neg_pi_lt (by linarith) h1
      rw [arctan2, if_neg (by linarith), if_pos hc, if_neg (by linarith),
        ← Real.tan_eq_sin_div_cos]
      have hper : Real.tan (τ + Real.pi) = Real.tan τ := Real.tan_periodic τ
      rw [← hper, Real.arctan_tan (by linarith) (by linarith)]
      ring
  · -- τ = π/2
    subst hA
    rw [arctan2, Real.cos_pi_div_two, Real.sin_pi_div_two]
    norm_num
  · -- τ ∈ (π/2, π]: cos τ < 0, sin τ ≥ 0
    have hc : Real.cos τ < 0 :=
      Real.cos_neg_of_pi_div_two_lt_of_lt hA (by linarith)
    have hs : 0 ≤ Real.sin τ := Real.sin_nonneg_of_nonneg_of_le_pi (by linarith) h2
    rw [arctan2, if_neg (by linarith), if_pos hc, if_pos hs,
      ← Real.tan_eq_sin_div_cos]
    have hper : Real.tan (τ - Real.pi) = Real.tan τ := Real.tan_periodic.sub_eq τ
    rw [← hper, Real.arctan_tan (by linarith) (by linarith)]
    ring

/-- `arctan2` is invariant under scaling both arguments by a positive factor. -/
theorem arctan2_smul {m : ℝ} (y x : ℝ) (hm : 0 < m) :
    arctan2 (m * y) (m * x) = arctan2 y x := by
  have hdiv : m * y / (m * x) = y / x := mul_div_mul_left y x hm.ne'
  rcases lt_trichotomy x 0 with hx | hx | hx
  · have hmx : m * x < 0 := mul_neg_of_pos_of_neg hm hx
    rcases le_or_lt 0 y with hy | hy
    · have hmy : 0 ≤ m * y := mul_nonneg hm.le hy
      rw [arctan2, if_neg (by linarith), if_pos hmx, if_pos hmy, hdiv,
        arctan2, if_neg (by linarith), if_pos hx, if_pos hy]
    · have hmy : ¬ 0 ≤ m * y := by
        intro h
        nlinarith
      rw [arctan2, if_neg (by linarith), if_pos hmx, if_neg hmy, hdiv,
        arctan2, if_neg (by linarith), if_pos hx, if_neg (by linarith)]
  · subst hx
    rcases lt_trichotomy y 0 with hy | hy | hy
    · have hmy : m * y < 0 := mul_neg_of_pos_of_neg hm hy
      rw [arctan2, mul_zero, if_neg (by norm_num), if_neg (by norm_num),
        if_neg (by linarith), if_pos hmy,
        arctan2, if_neg (by norm_num), if_neg (by norm_num),
        if_neg (by linarith), if_pos hy]
    · subst hy
      rw [mul_zero]
    · have hmy : 0 < m * y := mul_pos hm hy
      rw [arctan2, mul_zero, if_neg (by norm_num), if_neg (by norm_num),
        if_pos hmy,
        arctan2, if_neg (by norm_num), if_neg (by norm_num), if_pos hy]
  · have hmx : 0 < m * x := mul_pos hm hx
    rw [arctan2, if_pos hmx, hdiv, arctan2, if_pos hx]

/-- `degrees` undoes `radians`. -/
theorem degrees_radians (θ : ℝ) : degrees (radians θ) = θ := by
  have hpi := Real.pi_ne_zero
  rw [radians, degrees]
  field_simp

theorem normDeg_mem (a : ℝ) : -180 < normDeg a ∧ normDeg a ≤ 180 := by
  have h1 : (a - 180) / 360 ≤ (⌈(a - 180) / 360⌉ : ℝ) := Int.le_ceil _
  have h2 : (⌈(a - 180) / 360⌉ : ℝ) < (a - 180) / 360 + 1 := Int.ceil_lt_add_one _
  have h3 : (a - 180) / 360 * 360 = a - 180 := by ring
  constructor
  · rw [normDeg]
    linarith
  · rw [normDeg]
    linarith

theorem normDeg_eq_self {a : ℝ} (h1 : -180 < a) (h2 : a ≤ 180) : normDeg a = a := by
  have hc : ⌈(a - 180) / 360⌉ = 0 := by
    rw [Int.ceil_eq_zero_iff]
    constructor
    · show (-1 : ℝ) < (a - 180) / 360
      rw [lt_div_iff₀ (by norm_num : (0:ℝ) < 360)]
      linarith
    · show (a - 180) / 360 ≤ 0
      apply div_nonpos_of_nonpos_of_nonneg <;> linarith
  rw [normDeg, hc]
  push_cast
  ring

/-- Magnitude round-trip of the decomposition:
`sqrt((m·cos t)² + (m·sin t)²) = m` for `m ≥ 0`. -/
theorem sqrt_decompose {m : ℝ} (θ : ℝ) (hm : 0 ≤ m) :
    Real.sqrt ((m * Real.cos (radians θ)) ^ 2 + (m * Real.sin (radians θ)) ^ 2) = m := by
  have hcs := Real.sin_sq_add_cos_sq (radians θ)
  have h : (m * Real.cos (radians θ)) ^ 2 + (m * Real.sin (radians θ)) ^ 2 = m ^ 2 := by
    nlinarith [hcs]
  rw [h, Real.sqrt_sq hm]

/-- Angle round-trip of the decomposition: for a positive magnitude,
`atan2` in degrees recovers the input angle normalized into `(-180, 180]`. -/
theorem degrees_arctan2_decompose {m : ℝ} (θ : ℝ) (hm : 0 < m) :
    degrees (arctan2 (m * Real.sin (radians θ)) (m * Real.cos (radians θ))) = normDeg θ := by
  have hpi := Real.pi_pos
  set t := radians θ with ht
  set k : ℤ := ⌈(θ - 180) / 360⌉ with hk
  set τ : ℝ := t - (k : ℝ) * (2 * Real.pi) with hτ
  have hs : Real.sin τ = Real.sin t := by
    have h := Real.sin_add_int_mul_two_pi t (-k)
    push_cast at h
    calc Real.sin τ = Real.sin (t + -(k : ℝ) * (2 * Real.pi)) := by rw [hτ]; ring_nf
    _ = Real.sin t := h
  have hc : Real.cos τ = Real.cos t := Real.cos_sub_int_mul_two_pi t k
  have harg : (θ - 180) / 360 = (t - Real.pi) / (2 * Real.pi) := by
    rw [ht, radians]
    rw [div_eq_div_iff (by norm_num) (by positivity)]
    ring
  have h1 : (t - Real.pi) / (2 * Real.pi) ≤ (k : ℝ) := by
    rw [← harg]
    exact_mod_cast Int.le_ceil ((θ - 180) / 360)
  have h2 : (k : ℝ) < (t - Real.pi) / (2 * Real.pi) + 1 := by
    rw [← harg]
    exact_mod_cast Int.ceil_lt_add_one ((θ - 180) / 360)
  have he : (t - Real.pi) / (2 * Real.pi) * (2 * Real.pi) = t - Real.pi := by
    field_simp
  have hub : τ ≤ Real.pi := by
    have := mul_le_mul_of_nonneg_right h1 (by positivity : (0:ℝ) ≤ 2 * Real.pi)
    rw [he] at this
    rw [hτ]
    linarith
  have hlb : -Real.pi < τ := by
    have := mul_lt_mul_of_pos_right h2 (by positivity : (0:ℝ) < 2 * Real.pi)
    rw [add_mul, he, one_mul] at this
    rw [hτ]
    linarith
  rw [arctan2_smul _ _ hm, ← hs, ← hc, arctan2_sin_cos hlb hub]
  rw [normDeg, ← hk, hτ, ht, radians, degrees]
  field_simp
  ring

/-- Degrees conversion maps the `arctan2` range `(-π, π]` onto `(-180, 180]`. -/
theorem degrees_arctan2_mem (y x : ℝ) :
    -180 < degrees (arctan2 y x) ∧ degrees (arctan2 y x) ≤ 180 := by
  obtain ⟨hl, hu⟩ := arctan2_mem_Ioc y x
  have hpi := Real.pi_pos
  have hratio : (0:ℝ) < 180 / Real.pi := by positivity
  have he : Real.pi * (180 / Real.pi) = 180 := by field_simp
  constructor
  · rw [degrees]
    have := mul_lt_mul_of_pos_right hl hratio
    nlinarith
  · rw [degrees]
    have := mul_le_mul_of_nonneg_right hu hratio.le
    nlinarith

/-- Evaluating `add_vectors` when the first magnitude is negative. -/
theorem add_vectors_err1 {f1m : ℝ} (f1a f2m f2a : ℝ) (h : f1m < 0) :
    add_vectors f1m f1a f2m f2a = Except.error ⟨"Force 1", f1m⟩ := by
  simp [add_vectors, validate_input, h]

/-- Evaluating `add_vectors` when only the second magnitude is negative. -/
theorem add_vectors_err2 {f1m f2m : ℝ} (f1a f2a : ℝ) (h1 : 0 ≤ f1m) (h : f2m < 0) :
    add_vectors f1m f1a f2m f2a = Except.error ⟨"Force 2", f2m⟩ := by
  simp [add_vectors, validate_input, h, not_lt.mpr h1]

/-- Evaluating `add_vectors` on valid inputs: it returns exactly the records
predicted by the spec's formulas. -/
theorem add_vectors_ok {f1m f2m : ℝ} (f1a f2a : ℝ) (h1 : 0 ≤ f1m) (h2 : 0 ≤ f2m) :
    add_vectors f1m f1a f2m f2a = Except.ok (specOutput f1m f1a f2m f2a) := by
  simp [add_vectors, specOutput, validate_input, not_lt.mpr h1, not_lt.mpr h2]

theorem arctan2_zero_zero : arctan2 0 0 = 0 := by
  rw [arctan2]
  norm_num

theorem degrees_zero : degrees 0 = 0 := by
  rw [degrees, zero_mul]

/-- `x % 360` in Python, rewritten through `Int.fract`. -/
theorem fmod_eq_fract (x : ℝ) : fmod x 360 = 360 * Int.fract (x / 360) := by
  rw [fmod, Int.fract]
  field_simp

theorem fmod360_nonneg (x : ℝ) : 0 ≤ fmod x 360 := by
  rw [fmod_eq_fract]
  have := Int.fract_nonneg (x / 360)
  linarith

theorem fmod360_lt (x : ℝ) : fmod x 360 < 360 := by
  rw [fmod_eq_fract]
  have := Int.fract_lt_one (x / 360)
  linarith

/-- Negation under Python's positive-divisor modulo. -/
theorem fmod360_neg (x : ℝ) :
    fmod (-x) 360 = if fmod x 360 = 0 then 0 else 360 - fmod x 360 := by
  rw [fmod_eq_fract, fmod_eq_fract, neg_div 360 x]
  by_cases h : Int.fract (x / 360) = 0
  · rw [if_pos (by simp [h]), Int.fract_neg_eq_zero.mpr h, mul_zero]
  · rw [if_neg (by intro hc; apply h; linarith), Int.fract_neg h]
    ring

/-- Unfolding `VectorHistory.add` to its two branches. -/
theorem VectorHistory.add_def {α : Type} (h : VectorHistory α) (e : α) :
    h.add e = if (h.history ++ [e]).length > h.max_size
      then ⟨h.max_size, pySliceLast (h.history ++ [e]) h.max_size⟩
      else ⟨h.max_size, h.history ++ [e]⟩ := by
  rw [VectorHistory.add]

/-- One `add` step preserves the keep-last-`m` shape of the log. -/
theorem add_lastN {α : Type} (m : Nat) (hm : 1 ≤ m) (l : List α) (e : α) :
    VectorHistory.add ⟨m, lastN m l⟩ e = ⟨m, lastN m (l ++ [e])⟩ := by
  rcases lt_or_le l.length m with hlt | hge
  · have e1 : lastN m l = l := by
      rw [lastN, Nat.sub_eq_zero_of_le hlt.le, List.drop_zero]
    have e2 : lastN m (l ++ [e]) = l ++ [e] := by
      rw [lastN, Nat.sub_eq_zero_of_le (by simp; omega), List.drop_zero]
    rw [e1, e2, VectorHistory.add_def]
    rw [if_neg (by simp; omega)]
  · have hlen : (lastN m l).length = m := by
      rw [lastN, List.length_drop]
      omega
    rw [VectorHistory.add_def, if_pos (by rw [List.length_append, hlen]; simp)]
    have harg : (lastN m l ++ [e]).length - m = 1 := by
      rw [List.length_append, hlen]
      simp
    have hslice : pySliceLast (lastN m l ++ [e]) m = (lastN m l ++ [e]).drop 1 := by
      rw [pySliceLast, if_neg (by omega), harg]
    rw [hslice, List.drop_append_of_le_length (by rw [hlen]; omega), lastN,
      List.drop_drop, lastN, List.drop_append_of_le_length (by simp; omega),
      List.length_append]
    have : l.length - m + 1 = l.length + [e].length - m := by simp; omega
    rw [this]

/-- Folding `add` over any entry sequence keeps exactly the last `m` entries. -/
theorem foldl_add_lastN {α : Type} (m : Nat) (hm : 1 ≤ m) (es : List α) :
    ∀ l : List α,
      es.foldl VectorHistory.add ⟨m, lastN m l⟩ = ⟨m, lastN m (l ++ es)⟩ := by
  induction es with
  | nil => intro l; rw [List.foldl_nil, List.append_nil]
  | cons e es ih =>
    intro l
    rw [List.foldl_cons, add_lastN m hm l e, ih (l ++ [e]), List.append_assoc,
      List.singleton_append]

/-- C1: for every pair of inputs with nonnegative magnitudes, `add_vectors`
returns components `x = magnitude·cos(radians(angle))`,
`y = magnitude·sin(radians(angle))` for each input, and a resultant whose
x and y are the elementwise sums, whose magnitude is `sqrt(x²+y²)`, and whose
angle is `atan2(Σy, Σx)` in degrees lying in `(-180, 180]`. -/
theorem c1_add_vectors_functional (f1m f1a f2m f2a : ℝ) (h1 : 0 ≤ f1m) (h2 : 0 ≤ f2m) :
    add_vectors f1m f1a f2m f2a = Except.ok (specOutput f1m f1a f2m f2a)
      ∧ -180 < (specOutput f1m f1a f2m f2a).2.2.angle
      ∧ (specOutput f1m f1a f2m f2a).2.2.angle ≤ 180 :=
  ⟨add_vectors_ok f1a f2a h1 h2,
   (degrees_arctan2_mem _ _).1, (degrees_arctan2_mem _ _).2⟩

/-- Witness for C1 at `f1 = (10, 30°)`, `f2 = (20, 120°)`. -/
theorem c1_witness :
    (0:ℝ) ≤ 10 ∧ (0:ℝ) ≤ 20
      ∧ (add_vectors 10 30 20 120 = Except.ok (specOutput 10 30 20 120)
          ∧ -180 < (specOutput 10 30 20 120).2.2.angle
          ∧ (specOutput 10 30 20 120).2.2.angle ≤ 180) :=
  ⟨by norm_num, by norm_num, c1_add_vectors_functional 10 30 20 120 (by norm_num) (by norm_num)⟩

/-- C2: `add_vectors` fails with `InvalidInput` iff some magnitude is
strictly negative; the error carries the offending vector's label and the
invalid value; angles are never rejected (the iff has no angle condition);
and on error `plot_vectors` leaves the caller's history unchanged and
produces no resultant. -/
theorem c2_invalid_input (f1m f1a f2m f2a scale : ℝ) (ts : String)
    (h : VectorHistory HEntry) :
    ((∃ e, add_vectors f1m f1a f2m f2a = Except.error e) ↔ f1m < 0 ∨ f2m < 0)
      ∧ (f1m < 0 →
          add_vectors f1m f1a f2m f2a = Except.error ⟨"Force 1", f1m⟩
            ∧ plot_vectors ts f1m f1a f2m f2a scale h
                = (h, Except.error ⟨"Force 1", f1m⟩))
      ∧ (0 ≤ f1m → f2m < 0 →
          add_vectors f1m f1a f2m f2a = Except.error ⟨"Force 2", f2m⟩
            ∧ plot_vectors ts f1m f1a f2m f2a scale h
                = (h, Except.error ⟨"Force 2", f2m⟩)) := by
  refine ⟨⟨?_, ?_⟩, ?_, ?_⟩
  · rintro ⟨e, he⟩
    by_contra hc
    push_neg at hc
    rw [add_vectors_ok f1a f2a hc.1 hc.2] at he
    simp at he
  · rintro (hf | hf)
    · exact ⟨_, add_vectors_err1 f1a f2m f2a hf⟩
    · by_cases hm1 : f1m < 0
      · exact ⟨_, add_vectors_err1 f1a f2m f2a hm1⟩
      · exact ⟨_, add_vectors_err2 f1a f2a (not_lt.mp hm1) hf⟩
  · intro hf
    have ha := add_vectors_err1 f1a f2m f2a hf
    exact ⟨ha, by rw [plot_vectors, ha]⟩
  · intro hm1 hf
    have ha := add_vectors_err2 f1a f2a hm1 hf
    exact ⟨ha, by rw [plot_vectors, ha]⟩

/-- Witness for C2: a negative first magnitude is rejected with the label
`Force 1` and the offending value, and the history is untouched. -/
theorem c2_witness :
    (-1:ℝ) < 0
      ∧ (add_vectors (-1) 5 2 7 = Except.error ⟨"Force 1", -1⟩
          ∧ plot_vectors "t" (-1) 5 2 7 10 ⟨50, []⟩
              = (⟨50, []⟩, Except.error ⟨"Force 1", -1⟩)) :=
  ⟨by norm_num, (c2_invalid_input (-1) 5 2 7 10 "t" ⟨50, []⟩).2.1 (by norm_num)⟩

/-- C3: starting from a fresh `VectorHistory` with the default bound 50,
after folding any sequence of `add` calls the log is exactly the suffix of
the most recent `min(k, 50)` entries, in the order they were added. -/
theorem c3_history_bounded (α : Type) (es : List α) :
    (es.foldl VectorHistory.add ⟨50, []⟩).history = es.drop (es.length - 50)
      ∧ (es.foldl VectorHistory.add ⟨50, []⟩).history.length = min es.length 50 := by
  have h0 : (⟨50, ([] : List α)⟩ : VectorHistory α) = ⟨50, lastN 50 []⟩ := rfl
  rw [h0, foldl_add_lastN 50 (by norm_num) es [], List.nil_append]
  refine ⟨rfl, ?_⟩
  show (lastN 50 es).length = min es.length 50
  rw [lastN, List.length_drop]
  omega

/-- C4: the opposite inputs `(10, 0°)` and `(10, 180°)` produce the zero
resultant with angle conventionally 0, and `draw_angle_arc` draws no arc for
that resultant angle (early return below `ZERO_THRESHOLD`). -/
theorem c4_opposite_vectors :
    okR (add_vectors 10 0 10 180) = ⟨0, 0, 0, 0⟩
      ∧ ∀ max_val radius_ratio : ℝ,
          draw_angle_arc (okR (add_vectors 10 0 10 180)).angle max_val radius_ratio
            = none := by
  have h0 : radians 0 = 0 := by rw [radians, zero_mul]
  have h180 : radians 180 = Real.pi := by
    rw [radians]
    field_simp
  have hok := @add_vectors_ok 10 10 0 180 (by norm_num) (by norm_num)
  have hr : okR (add_vectors 10 0 10 180) = ⟨0, 0, 0, 0⟩ := by
    rw [hok]
    show (specOutput 10 0 10 180).2.2 = ⟨0, 0, 0, 0⟩
    simp only [specOutput]
    rw [h0, h180, Real.cos_zero, Real.sin_zero, Real.cos_pi, Real.sin_pi]
    norm_num [arctan2_zero_zero, degrees_zero]
  refine ⟨hr, ?_⟩
  intro mv rr
  rw [hr]
  show draw_angle_arc 0 mv rr = none
  rw [draw_angle_arc, if_pos]
  rw [abs_zero, ZERO_THRESHOLD]
  norm_num

/-- C5 fails as stated: it quantifies over every `magnitude ≥ 0`, but at
magnitude 0 the decomposition of angle 90° gives `(x, y) = (0, 0)`, whose
`atan2` is 0 while the input angle normalized to the `atan2` convention is
90 — the angle is not recovered. -/
theorem c5_counterexample :
    degrees (arctan2 ((0:ℝ) * Real.sin (radians 90)) ((0:ℝ) * Real.cos (radians 90))) = 0
      ∧ normDeg 90 = 90
      ∧ (0:ℝ) ≠ 90 := by
  refine ⟨?_, normDeg_eq_self (by norm_num) (by norm_num), by norm_num⟩
  rw [zero_mul, zero_mul, arctan2_zero_zero, degrees_zero]

/-- C5 (amended): the decomposition round-trips — `sqrt(x²+y²)` recovers the
magnitude for every `magnitude ≥ 0`, and `atan2(y, x)` in degrees recovers
the input angle normalized into `(-180, 180]` whenever the magnitude is
strictly positive (at magnitude 0 the angle is not recoverable). -/
theorem c5_roundtrip (m θ : ℝ) (hm : 0 ≤ m) :
    Real.sqrt ((m * Real.cos (radians θ)) ^ 2 + (m * Real.sin (radians θ)) ^ 2) = m
      ∧ (0 < m →
          degrees (arctan2 (m * Real.sin (radians θ)) (m * Real.cos (radians θ)))
            = normDeg θ) :=
  ⟨sqrt_decompose θ hm, fun hm0 => degrees_arctan2_decompose θ hm0⟩

/-- Witness for C5 (amended) at magnitude 2, angle 225°. -/
theorem c5_witness :
    (0:ℝ) ≤ 2
      ∧ (Real.sqrt ((2 * Real.cos (radians 225)) ^ 2 + (2 * Real.sin (radians 225)) ^ 2)
            = 2
          ∧ ((0:ℝ) < 2 →
              degrees (arctan2 (2 * Real.sin (radians 225)) (2 * Real.cos (radians 225)))
                = normDeg 225)) :=
  ⟨by norm_num, c5_roundtrip 2 225 (by norm_num)⟩

/-- C6: vector summation is commutative in the resultant: swapping the two
inputs of `add_vectors` leaves the resultant record unchanged, and the
(spec-modelled) N-vector `sum_vectors` is invariant under any permutation of
its input list. -/
theorem c6_commutative (f1m f1a f2m f2a : ℝ) (vs vs2 : List (ℝ × ℝ))
    (h1 : 0 ≤ f1m) (h2 : 0 ≤ f2m) (hp : vs.Perm vs2) :
    okR (add_vectors f1m f1a f2m f2a) = okR (add_vectors f2m f2a f1m f1a)
      ∧ sum_vectors vs = sum_vectors vs2 := by
  constructor
  · rw [add_vectors_ok f1a f2a h1 h2, add_vectors_ok f2a f1a h2 h1]
    show (specOutput f1m f1a f2m f2a).2.2 = (specOutput f2m f2a f1m f1a).2.2
    simp only [specOutput]
    rw [add_comm (f1m * Real.cos (radians f1a)) (f2m * Real.cos (radians f2a)),
      add_comm (f1m * Real.sin (radians f1a)) (f2m * Real.sin (radians f2a))]
  · have hx : (vs.map (fun p => p.1 * Real.cos (radians p.2))).sum
        = (vs2.map (fun p => p.1 * Real.cos (radians p.2))).sum :=
      (hp.map _).sum_eq
    have hy : (vs.map (fun p => p.1 * Real.sin (radians p.2))).sum
        = (vs2.map (fun p => p.1 * Real.sin (radians p.2))).sum :=
      (hp.map _).sum_eq
    rw [sum_vectors, sum_vectors, hx, hy]

/-- Witness for C6: swapping `(10, 30°)` and `(20, 120°)`, and permuting a
two-element list. -/
theorem c6_witness :
    (0:ℝ) ≤ 10 ∧ (0:ℝ) ≤ 20
      ∧ (okR (add_vectors 10 30 20 120) = okR (add_vectors 20 120 10 30)
          ∧ sum_vectors [((1:ℝ), (2:ℝ)), (3, 4)] = sum_vectors [((3:ℝ), (4:ℝ)), (1, 2)]) :=
  ⟨by norm_num, by norm_num,
   c6_commutative 10 30 20 120 _ _ (by norm_num) (by norm_num) (List.Perm.swap _ _ _)⟩

/-- C7 fails as stated: the first input record of `add_vectors 1 360 0 0`
stores the caller-supplied angle 360, but `atan2` of its components is 0
degrees; the stored angle does not equal `atan2(y, x)` (they differ by a full
turn), so the claimed Vector2D invariant fails on input records whose angle
lies outside `(-180, 180]`. -/
theorem c7_counterexample : ¬ VectorInvariant (okF1 (add_vectors 1 360 0 0)) := by
  have hok := @add_vectors_ok 1 0 360 0 (by norm_num) (by norm_num)
  have h360 : radians 360 = 2 * Real.pi := by
    rw [radians]
    field_simp
    ring
  intro hinv
  rw [hok] at hinv
  obtain ⟨-, hangle, -⟩ := hinv
  have h' : (360:ℝ)
      = degrees (arctan2 (1 * Real.sin (radians 360)) (1 * Real.cos (radians 360))) :=
    hangle
  rw [h360, Real.cos_two_pi, Real.sin_two_pi, mul_zero, mul_one] at h'
  have h01 : arctan2 0 1 = 0 := by
    rw [arctan2, if_pos one_pos]
    norm_num [Real.arctan_zero]
  rw [h01, degrees_zero] at h'
  norm_num at h'

/-- A decomposed input record satisfies the amended invariant. -/
theorem decomposed_inv {m : ℝ} (θ : ℝ) (hm : 0 ≤ m) :
    VectorInvariantMod ⟨m * Real.cos (radians θ), m * Real.sin (radians θ), m, θ⟩ := by
  refine ⟨?_, hm, ?_⟩
  · exact (sqrt_decompose θ hm).symm
  · intro hm0
    exact (degrees_arctan2_decompose θ hm0).symm

/-- A resultant record satisfies the spec invariant exactly, and hence also
the amended one. -/
theorem resultant_inv (x y : ℝ) :
    VectorInvariant ⟨x, y, Real.sqrt (x ^ 2 + y ^ 2), degrees (arctan2 y x)⟩
      ∧ VectorInvariantMod ⟨x, y, Real.sqrt (x ^ 2 + y ^ 2), degrees (arctan2 y x)⟩ := by
  obtain ⟨hl, hu⟩ := degrees_arctan2_mem y x
  exact ⟨⟨rfl, rfl, Real.sqrt_nonneg _⟩,
    rfl, Real.sqrt_nonneg _, fun _ => normDeg_eq_self hl hu⟩

/-- C7 (amended): every record produced by a valid `add_vectors` call has
`mag = sqrt(x²+y²) ≥ 0`, and its stored angle agrees with `atan2(y, x)` in
degrees up to the 360° normalization whenever the magnitude is positive; the
resultant satisfies the invariant exactly as the spec states it. -/
theorem c7_invariant (f1m f1a f2m f2a : ℝ) (h1 : 0 ≤ f1m) (h2 : 0 ≤ f2m) :
    VectorInvariantMod (okF1 (add_vectors f1m f1a f2m f2a))
      ∧ VectorInvariantMod (okF2 (add_vectors f1m f1a f2m f2a))
      ∧ VectorInvariantMod (okR (add_vectors f1m f1a f2m f2a))
      ∧ VectorInvariant (okR (add_vectors f1m f1a f2m f2a)) := by
  rw [add_vectors_ok f1a f2a h1 h2]
  exact ⟨decomposed_inv f1a h1, decomposed_inv f2a h2,
    (resultant_inv _ _).2, (resultant_inv _ _).1⟩

/-- Witness for C7 (amended) at `f1 = (10, 200°)`, `f2 = (5, 90°)`. -/
theorem c7_witness :
    (0:ℝ) ≤ 10 ∧ (0:ℝ) ≤ 5
      ∧ (VectorInvariantMod (okF1 (add_vectors 10 200 5 90))
          ∧ VectorInvariantMod (okF2 (add_vectors 10 200 5 90))
          ∧ VectorInvariantMod (okR (add_vectors 10 200 5 90))
          ∧ VectorInvariant (okR (add_vectors 10 200 5 90))) :=
  ⟨by norm_num, by norm_num, c7_invariant 10 200 5 90 (by norm_num) (by norm_num)⟩

/-- Reading another list address is unaffected by an in-place update. -/
theorem readList_set_ne {β : Type} (σ : PyHeap β) (a n : Nat) (l2 : List Nat)
    (hne : a ≠ n) :
    PyHeap.readList { σ with lists := σ.lists.set a l2 } n = σ.readList n := by
  rw [PyHeap.readList, PyHeap.readList, List.get?_set_ne _ _ hne]

/-- Mutating a list object other than the internal history list leaves the
log contents unchanged. -/
theorem logContents_set_ne {β : Type} (σ : PyHeap β) (h : PyHistoryRef) (a : Nat)
    (l2 : List Nat) (hne : a ≠ h.historyAddr) :
    PyHeap.logContents { σ with lists := σ.lists.set a l2 } h = σ.logContents h := by
  rw [PyHeap.logContents, PyHeap.logContents, readList_set_ne σ a h.historyAddr l2 hne]

/-- C8 fails as stated: `get_all` returns `self.history.copy()`, a shallow
copy, so the entry records in the returned view are the very dict objects the
internal log holds.  Here the view of a one-entry log contains entry address
0; mutating that record in place changes the log's observable contents. -/
theorem c8_counterexample :
    0 ∈ PyHeap.readList (PyHeap.get_all (⟨[[0]], [(7:ℕ)]⟩ : PyHeap ℕ) ⟨50, 0⟩).1
          (PyHeap.get_all (⟨[[0]], [(7:ℕ)]⟩ : PyHeap ℕ) ⟨50, 0⟩).2
      ∧ PyHeap.logContents
          (PyHeap.entrySet (PyHeap.get_all (⟨[[0]], [(7:ℕ)]⟩ : PyHeap ℕ) ⟨50, 0⟩).1 0 9)
          ⟨50, 0⟩
        ≠ PyHeap.logContents (PyHeap.get_all (⟨[[0]], [(7:ℕ)]⟩ : PyHeap ℕ) ⟨50, 0⟩).1
            ⟨50, 0⟩ := by
  decide

/-- C8 (amended): `get_all` does return a defensive copy of the sequence
itself — a fresh list object, distinct from the internal one, with equal
contents; mutating the returned list object (append or in-place overwrite)
never changes the log.  Only mutation of the shared entry records does
(see the counterexample). -/
theorem c8_get_all_copy {β : Type} (σ : PyHeap β) (h : PyHistoryRef)
    (hv : h.historyAddr < σ.lists.length) :
    (σ.get_all h).2 ≠ h.historyAddr
      ∧ PyHeap.readList (σ.get_all h).1 (σ.get_all h).2 = σ.readList h.historyAddr
      ∧ PyHeap.logContents (σ.get_all h).1 h = σ.logContents h
      ∧ (∀ v, PyHeap.logContents
            (PyHeap.listAppend (σ.get_all h).1 (σ.get_all h).2 v) h
          = PyHeap.logContents (σ.get_all h).1 h)
      ∧ (∀ i v, PyHeap.logContents
            (PyHeap.listSet (σ.get_all h).1 (σ.get_all h).2 i v) h
          = PyHeap.logContents (σ.get_all h).1 h) := by
  have ha : (σ.get_all h).2 = σ.lists.length := rfl
  have hne : (σ.get_all h).2 ≠ h.historyAddr := by
    rw [ha]
    omega
  refine ⟨hne, ?_, ?_, ?_, ?_⟩
  · rw [PyHeap.readList]
    show (((σ.lists ++ [σ.readList h.historyAddr]).get? σ.lists.length)).getD [] = _
    rw [List.get?_concat_length]
    rfl
  · rw [PyHeap.logContents, PyHeap.logContents, PyHeap.readList, PyHeap.readList]
    show ((((σ.lists ++ [σ.readList h.historyAddr]).get? h.historyAddr)).getD []).map _
        = _
    rw [List.get?_append hv]
    rfl
  · intro v
    rw [PyHeap.listAppend, logContents_set_ne _ _ _ _ hne]
  · intro i v
    rw [PyHeap.listSet, logContents_set_ne _ _ _ _ hne]

/-- Witness for C8 (amended) on a concrete one-entry heap. -/
theorem c8_witness :
    (0:Nat) < 1
      ∧ (PyHeap.get_all (⟨[[0]], [(7:ℕ)]⟩ : PyHeap ℕ) ⟨50, 0⟩).2 ≠ 0
      ∧ PyHeap.logContents
          (PyHeap.listAppend (PyHeap.get_all (⟨[[0]], [(7:ℕ)]⟩ : PyHeap ℕ) ⟨50, 0⟩).1
            (PyHeap.get_all (⟨[[0]], [(7:ℕ)]⟩ : PyHeap ℕ) ⟨50, 0⟩).2 3)
          ⟨50, 0⟩
        = PyHeap.logContents (PyHeap.get_all (⟨[[0]], [(7:ℕ)]⟩ : PyHeap ℕ) ⟨50, 0⟩).1
            ⟨50, 0⟩ :=
  ⟨by decide,
   (c8_get_all_copy (⟨[[0]], [(7:ℕ)]⟩ : PyHeap ℕ) ⟨50, 0⟩ (by decide)).1,
   (c8_get_all_copy (⟨[[0]], [(7:ℕ)]⟩ : PyHeap ℕ) ⟨50, 0⟩ (by decide)).2.2.2.1 3⟩

/-- C9 fails as stated for `n = 0`: Python's `history[-0:]` is the whole
list, so `get_last(0)` on a one-entry log returns that entry instead of the
most recent zero entries (the empty list). -/
theorem c9_counterexample :
    VectorHistory.get_last (⟨50, [0]⟩ : VectorHistory ℕ) 0 ≠ [] := by
  decide

/-- C9 (amended): for every log state and every `n ≥ 1`, `get_last(n)` is
exactly the suffix of the `min(n, size)` most recent entries, oldest-first;
`n` larger than the log returns the whole log.  (For `n = 0` the slice quirk
`-0 == 0` returns the whole log instead of nothing.) -/
theorem c9_get_last (α : Type) (h : VectorHistory α) (n : Nat) (hn : 1 ≤ n) :
    VectorHistory.get_last h n = h.history.drop (h.history.length - n)
      ∧ (VectorHistory.get_last h n).length = min n h.history.length := by
  have key : VectorHistory.get_last h n = h.history.drop (h.history.length - n) := by
    rw [VectorHistory.get_last]
    by_cases he : h.history.isEmpty
    · rw [if_pos he]
      rw [List.isEmpty_iff] at he
      rw [he, List.drop_nil]
    · rw [if_neg he, pySliceLast, if_neg (by omega)]
  refine ⟨key, ?_⟩
  rw [key, List.length_drop]
  omega

/-- Witness for C9 (amended): the last 2 of a 3-entry log. -/
theorem c9_witness :
    (1:Nat) ≤ 2
      ∧ (VectorHistory.get_last (⟨50, [10, 20, 30]⟩ : VectorHistory ℕ) 2
            = [10, 20, 30].drop ([10, 20, 30].length - 2)
          ∧ (VectorHistory.get_last (⟨50, [10, 20, 30]⟩ : VectorHistory ℕ) 2).length
              = min 2 [10, 20, 30].length) :=
  ⟨by decide, c9_get_last ℕ ⟨50, [10, 20, 30]⟩ 2 (by decide)⟩

/-- C10: `relative_angle` is symmetric in its two arguments and its result
always lies in `[0, 180]`. -/
theorem c10_relative_angle (a b : ℝ) :
    relative_angle a b = relative_angle b a
      ∧ 0 ≤ relative_angle a b ∧ relative_angle a b ≤ 180 := by
  have hab : a - b = -(b - a) := by ring
  have hd0 := fmod360_nonneg (b - a)
  have hd1 := fmod360_lt (b - a)
  rw [relative_angle, relative_angle, hab, fmod360_neg]
  by_cases h : fmod (b - a) 360 = 0
  · rw [if_pos h, h]
    norm_num
  · rw [if_neg h]
    have h' : 0 < fmod (b - a) 360 := lt_of_le_of_ne hd0 (Ne.symm h)
    split_ifs with h1 h2 h2 <;>
      exact ⟨by linarith, by linarith, by linarith⟩

end VectorApp
